import Mathlib

/-!
Shallow embedding of the fake clock/timer (ClockFake) from src/timer.go of
ngicks/mockable.

Modelling choices:
- time.Time and time.Duration are integer nanosecond counts (Int); time.Time.Add
  adds its Duration argument in nanoseconds, so next.Add(1) is next + 1.
- The Go field resetArg has type slice of pointers to time.Duration.  It is
  modelled as a list of optional heap addresses together with an explicit heap
  (a list of Int indexed by address; Reset allocates by appending).  This keeps
  the pointer structure of the source observable: CloneResetArg copies the slice
  but the copied slice holds the same pointers.
- ResetCh and StopCh are capacity-1 channels written with non-blocking sends;
  they are carried in the state as a bounded buffer and a pending-signal count.
- TimeCh is unbuffered; the value a Send call delivers on it is returned
  explicitly.  Send is split at its suspension point (the blocking channel send
  at timer.go line 216) into sendPhase1 (everything done under the first lock
  acquisition, through releasing the lock) and sendPhase2 (everything done after
  the send completes); Send is their composition.
- Operations are interleaved at lock granularity; sequential traces of complete
  operations are modelled by lists of TimerOp.  The non-blocking drain of TimeCh
  inside Reset (timer.go lines 163-166) receives only when a sender is blocked
  on the unbuffered TimeCh, which never happens within such a trace, so it is a
  no-op in this model.
-/

abbrev Addr := Nat

structure ClockFake where
  current : Int
  resetArg : List (Option Addr)
  heap : List Int
  resetCh : List Int
  stopCh : Nat
  sending : Bool
  scheduled : Bool
  deriving DecidableEq, Repr

/-- NewClockFake (timer.go 137-145): initial state with the given current time,
empty history, empty channels, both flags false. -/
def NewClockFake (current : Int) : ClockFake :=
  { current := current, resetArg := [], heap := [], resetCh := [], stopCh := 0,
    sending := false, scheduled := false }

/-- Now (timer.go 148-152): returns current under the lock. -/
def ClockFake.Now (c : ClockFake) : Int :=
  c.current

/-- Reset (timer.go 158-171): appends a pointer to a fresh copy of d to
resetArg, sets scheduled, drains TimeCh without blocking (a no-op here, see the
header comment), and does a non-blocking send of d on the capacity-1 ResetCh. -/
def ClockFake.Reset (c : ClockFake) (d : Int) : ClockFake :=
  { c with
    resetArg := c.resetArg ++ [some c.heap.length]
    heap := c.heap ++ [d]
    scheduled := true
    resetCh := if c.resetCh.length < 1 then c.resetCh ++ [d] else c.resetCh }

/-- Stop (timer.go 174-185): appends nil to resetArg, does a non-blocking send
on the capacity-1 StopCh, reads the scheduled flag into beenScheduled, clears
the flag and returns beenScheduled. -/
def ClockFake.Stop (c : ClockFake) : ClockFake × Bool :=
  ({ c with
      resetArg := c.resetArg ++ [none]
      stopCh := if c.stopCh < 1 then c.stopCh + 1 else c.stopCh
      scheduled := false },
    c.scheduled)

/-- SetNow (timer.go 187-192): swaps current, returns the previous value. -/
def ClockFake.SetNow (c : ClockFake) (t : Int) : ClockFake × Int :=
  ({ c with current := t }, c.current)

/-- Backward scan shared by Send (timer.go 203-209) and LastReset (timer.go
253-257): both loop i from len(resetArg) down to 1 and stop at the first
non-nil entry.  The argument is the reversed resetArg (most recent entry
first); the result is the dereferenced duration paired with whether a non-nil
entry was found (Send uses the duration, which stays 0 when nothing is found;
LastReset returns both components). -/
def lastResetScan (heap : List Int) : List (Option Addr) → Int × Bool
  | [] => (0, false)
  | none :: rest => lastResetScan heap rest
  | some a :: _ => (heap.getD a 0, true)

/-- Result of a Send call: the state of the clock, the value sent on the
unbuffered TimeCh, and the value Send returns (prev). -/
structure SendResult where
  state : ClockFake
  sent : Int
  ret : Int
  deriving DecidableEq, Repr

/-- First half of Send (timer.go 200-214): under the lock, computes lastReset
by the backward scan, computes next = current + lastReset, sets
current = next + 1 (next.Add(1), one nanosecond), records prev, sets
sending = true and releases the lock.  The resulting state is the state
observable while Send is blocked sending next on TimeCh. -/
def ClockFake.sendPhase1 (c : ClockFake) : SendResult :=
  let lastReset := (lastResetScan c.heap c.resetArg.reverse).1
  let next := c.current + lastReset
  { state := { c with current := next + 1, sending := true }
    sent := next
    ret := c.current }

/-- Second half of Send (timer.go 218-221): after the channel send completes,
re-acquires the lock and clears scheduled and sending. -/
def ClockFake.sendPhase2 (c : ClockFake) : ClockFake :=
  { c with scheduled := false, sending := false }

/-- Send (timer.go 200-223) run to completion: phase 1, the blocking send of
sent on TimeCh, then phase 2.  ret is the returned prev. -/
def ClockFake.Send (c : ClockFake) : SendResult :=
  let r := c.sendPhase1
  { r with state := r.state.sendPhase2 }

/-- CloneResetArg (timer.go 238-245): copies the slice.  The copy is a new
slice whose entries are the same pointers (addresses) as the internal one. -/
def ClockFake.CloneResetArg (c : ClockFake) : List (Option Addr) :=
  c.resetArg

/-- LastReset (timer.go 249-260): backward scan for the last non-nil entry;
returns (0, false) when the clock was never Reset. -/
def ClockFake.LastReset (c : ClockFake) : Int × Bool :=
  lastResetScan c.heap c.resetArg.reverse

/-- IsSending (timer.go 264-268). -/
def ClockFake.IsSending (c : ClockFake) : Bool :=
  c.sending

/-- IsScheduled (timer.go 270-274). -/
def ClockFake.IsScheduled (c : ClockFake) : Bool :=
  c.scheduled

/-- ExhaustCh (timer.go 226-235): drains ResetCh and StopCh. -/
def ClockFake.ExhaustCh (c : ClockFake) : ClockFake :=
  { c with resetCh := [], stopCh := 0 }

/-- Models a caller writing v through the pointer at address a, as a caller of
CloneResetArg can do with the pointers contained in the returned slice. -/
def writeThrough (c : ClockFake) (a : Addr) (v : Int) : ClockFake :=
  { c with heap := c.heap.set a v }

/-- Dereferences the entries of a slice of duration pointers: what a caller
reading the returned history observes (nil, or the pointed-to duration). -/
def derefAll (heap : List Int) (l : List (Option Addr)) : List (Option Int) :=
  l.map (fun e => e.map (fun a => heap.getD a 0))

/-- The observable history of a clock: CloneResetArg with every pointer
dereferenced in the clock's heap. -/
def ClockFake.historyVals (c : ClockFake) : List (Option Int) :=
  derefAll c.heap c.CloneResetArg

/-- One complete mutating operation on a ClockFake, for sequential traces. -/
inductive TimerOp where
  | arm (d : Int)
  | cancel
  | setNow (t : Int)
  | send
  deriving DecidableEq, Repr

/-- Runs one operation to completion (for send: phase 1, the matching receive,
phase 2). -/
def applyOp (c : ClockFake) : TimerOp → ClockFake
  | .arm d => c.Reset d
  | .cancel => (c.Stop).1
  | .setNow t => (c.SetNow t).1
  | .send => (c.Send).state

/-- Runs a trace of operations left to right. -/
def runOps (c : ClockFake) (ops : List TimerOp) : ClockFake :=
  ops.foldl applyOp c

/-- Spec-side view of a call sequence as the history it should produce:
Armed(d), i.e. some d, for each arm; Cancelled, i.e. none, for each cancel;
nothing for the other operations. -/
def specHistory : List TimerOp → List (Option Int)
  | [] => []
  | .arm d :: r => some d :: specHistory r
  | .cancel :: r => none :: specHistory r
  | .setNow _ :: r => specHistory r
  | .send :: r => specHistory r

/-- Scans a reversed call sequence (most recent operation first) for the most
recent arm, skipping every other operation. -/
def mostRecentArmedRev : List TimerOp → Option Int
  | [] => none
  | .arm d :: _ => some d
  | _ :: r => mostRecentArmedRev r

/-- Given the scheduled flag b before a trace and the reversed trace (most
recent operation first): true iff the most recent among arm, cancel and send is
an arm (b when there is none); setNow does not affect the flag. -/
def schedAfterRev (b : Bool) : List TimerOp → Bool
  | [] => b
  | .arm _ :: _ => true
  | .cancel :: _ => false
  | .send :: _ => false
  | .setNow _ :: r => schedAfterRev b r

/-- Well-formedness: every pointer recorded in resetArg points into the heap.
Holds for every state reachable from NewClockFake. -/
def wf (c : ClockFake) : Prop :=
  ∀ a, some a ∈ c.resetArg → a < c.heap.length

theorem getD_append_lt (l : List Int) (x : Int) (a : Nat) (h : a < l.length) :
    (l ++ [x]).getD a 0 = l.getD a 0 := by
  induction l generalizing a with
  | nil => simp at h
  | cons y ys ih =>
    cases a with
    | zero => rfl
    | succ n => simpa using ih n (by simpa using h)

theorem getD_append_len (l : List Int) (x : Int) :
    (l ++ [x]).getD l.length 0 = x := by
  induction l with
  | nil => rfl
  | cons y ys _ih => simp

theorem getD_set_self (l : List Int) (n : Nat) (v : Int) (h : n < l.length) :
    (l.set n v).getD n 0 = v := by
  induction l generalizing n with
  | nil => simp at h
  | cons y ys ih =>
    cases n with
    | zero => rfl
    | succ m => simpa using ih m (by simpa using h)

theorem runOps_concat (c : ClockFake) (ops : List TimerOp) (op : TimerOp) :
    runOps c (ops ++ [op]) = applyOp (runOps c ops) op := by
  simp [runOps]

theorem wf_new (t : Int) : wf (NewClockFake t) := by
  intro a ha
  simp [NewClockFake] at ha

theorem wf_applyOp (c : ClockFake) (op : TimerOp) (h : wf c) : wf (applyOp c op) := by
  cases op with
  | arm d =>
    intro a ha
    show a < (c.heap ++ [d]).length
    have ha2 : some a ∈ c.resetArg ++ [some c.heap.length] := ha
    simp only [List.length_append, List.length_singleton]
    rcases List.mem_append.1 ha2 with h1 | h1
    · exact Nat.lt_succ_of_lt (h a h1)
    · have h3 : a = c.heap.length := by simpa using h1
      subst h3
      exact Nat.lt_succ_self _
  | cancel =>
    intro a ha
    simp [applyOp, ClockFake.Stop] at ha
    exact h a ha
  | setNow t =>
    intro a ha
    simp [applyOp, ClockFake.SetNow] at ha
    exact h a ha
  | send =>
    intro a ha
    simp [applyOp, ClockFake.Send, ClockFake.sendPhase1, ClockFake.sendPhase2] at ha
    exact h a ha

theorem wf_runOps (ops : List TimerOp) : ∀ c : ClockFake, wf c → wf (runOps c ops) := by
  induction ops with
  | nil => intro c h; exact h
  | cons op rest ih =>
    intro c h
    exact ih (applyOp c op) (wf_applyOp c op h)

theorem derefAll_heap_grow (heap : List Int) (x : Int) (l : List (Option Addr))
    (h : ∀ a, some a ∈ l → a < heap.length) :
    derefAll (heap ++ [x]) l = derefAll heap l := by
  unfold derefAll
  apply List.map_congr_left
  intro e he
  cases e with
  | none => rfl
  | some a =>
    show some ((heap ++ [x]).getD a 0) = some (heap.getD a 0)
    rw [getD_append_lt heap x a (h a he)]

theorem historyVals_Reset (c : ClockFake) (d : Int) (h : wf c) :
    (c.Reset d).historyVals = c.historyVals ++ [some d] := by
  simp [ClockFake.Reset, ClockFake.historyVals, ClockFake.CloneResetArg, derefAll,
    getD_append_len]
  have := derefAll_heap_grow c.heap d c.resetArg h
  simpa [derefAll] using this

theorem historyVals_Stop (c : ClockFake) :
    ((c.Stop).1).historyVals = c.historyVals ++ [none] := by
  simp [ClockFake.Stop, ClockFake.historyVals, ClockFake.CloneResetArg, derefAll]

theorem historyVals_SetNow (c : ClockFake) (t : Int) :
    ((c.SetNow t).1).historyVals = c.historyVals := rfl

theorem historyVals_Send (c : ClockFake) :
    ((c.Send).state).historyVals = c.historyVals := rfl

theorem historyVals_runOps (ops : List TimerOp) :
    ∀ c : ClockFake, wf c →
      (runOps c ops).historyVals = c.historyVals ++ specHistory ops := by
  induction ops with
  | nil => intro c h; simp [runOps, specHistory]
  | cons op rest ih =>
    intro c h
    have h1 : runOps c (op :: rest) = runOps (applyOp c op) rest := rfl
    rw [h1, ih (applyOp c op) (wf_applyOp c op h)]
    cases op with
    | arm d => rw [show applyOp c (.arm d) = c.Reset d from rfl, historyVals_Reset c d h]
               simp [specHistory]
    | cancel => rw [show applyOp c .cancel = (c.Stop).1 from rfl, historyVals_Stop]
                simp [specHistory]
    | setNow t => rw [show applyOp c (.setNow t) = (c.SetNow t).1 from rfl,
                    historyVals_SetNow]
                  simp [specHistory]
    | send => rw [show applyOp c .send = (c.Send).state from rfl, historyVals_Send]
              simp [specHistory]

theorem lastReset_Reset (c : ClockFake) (d : Int) :
    (c.Reset d).LastReset = (d, true) := by
  simp [ClockFake.Reset, ClockFake.LastReset, lastResetScan, getD_append_len]

theorem lastReset_Stop (c : ClockFake) :
    ((c.Stop).1).LastReset = c.LastReset := by
  simp [ClockFake.Stop, ClockFake.LastReset, lastResetScan]

theorem lastReset_SetNow (c : ClockFake) (t : Int) :
    ((c.SetNow t).1).LastReset = c.LastReset := rfl

theorem lastReset_Send (c : ClockFake) :
    ((c.Send).state).LastReset = c.LastReset := rfl

theorem lastReset_runOps_rev (l : List TimerOp) :
    ∀ c : ClockFake,
      (runOps c l.reverse).LastReset =
        (match mostRecentArmedRev l with
          | some d => (d, true)
          | none => c.LastReset) := by
  induction l with
  | nil => intro c; simp [runOps, mostRecentArmedRev]
  | cons op r ih =>
    intro c
    have h1 : (op :: r).reverse = r.reverse ++ [op] := by simp
    rw [h1, runOps_concat]
    cases op with
    | arm d =>
      rw [show applyOp (runOps c r.reverse) (.arm d) = (runOps c r.reverse).Reset d from
        rfl]
      rw [lastReset_Reset]
      rfl
    | cancel =>
      rw [show applyOp (runOps c r.reverse) .cancel = ((runOps c r.reverse).Stop).1 from
        rfl]
      rw [lastReset_Stop, ih c]
      rfl
    | setNow t =>
      rw [show applyOp (runOps c r.reverse) (.setNow t) =
        (((runOps c r.reverse).SetNow t)).1 from rfl]
      rw [lastReset_SetNow, ih c]
      rfl
    | send =>
      rw [show applyOp (runOps c r.reverse) .send = ((runOps c r.reverse).Send).state from
        rfl]
      rw [lastReset_Send, ih c]
      rfl

theorem sched_runOps_rev (l : List TimerOp) :
    ∀ c : ClockFake, (runOps c l.reverse).scheduled = schedAfterRev c.scheduled l := by
  induction l with
  | nil => intro c; rfl
  | cons op r ih =>
    intro c
    have h1 : (op :: r).reverse = r.reverse ++ [op] := by simp
    rw [h1, runOps_concat]
    cases op with
    | arm d => rfl
    | cancel => rfl
    | setNow t =>
      rw [show (applyOp (runOps c r.reverse) (.setNow t)).scheduled =
        (runOps c r.reverse).scheduled from rfl]
      rw [ih c]
      rfl
    | send => rfl

theorem mostRecentArmedRev_eq_none_iff (l : List TimerOp) :
    mostRecentArmedRev l = none ↔ ∀ d, TimerOp.arm d ∉ l := by
  induction l with
  | nil => simp [mostRecentArmedRev]
  | cons op r ih =>
    cases op with
    | arm d =>
      simp only [mostRecentArmedRev]
      constructor
      · intro h
        cases h
      · intro h
        exact absurd (List.mem_cons_self _ _) (h d)
    | cancel =>
      simp only [mostRecentArmedRev, List.mem_cons]
      rw [ih]
      constructor
      · intro h d hd
        rcases hd with hd | hd
        · cases hd
        · exact h d hd
      · intro h d hd
        exact h d (Or.inr hd)
    | setNow t =>
      simp only [mostRecentArmedRev, List.mem_cons]
      rw [ih]
      constructor
      · intro h d hd
        rcases hd with hd | hd
        · cases hd
        · exact h d hd
      · intro h d hd
        exact h d (Or.inr hd)
    | send =>
      simp only [mostRecentArmedRev, List.mem_cons]
      rw [ih]
      constructor
      · intro h d hd
        rcases hd with hd | hd
        · cases hd
        · exact h d hd
      · intro h d hd
        exact h d (Or.inr hd)

/-- C1: for every trace of operations started from NewClockFake t, the value a
Send call delivers on TimeCh equals the current instant at call time plus the
most recently recorded armed duration, found by scanning the history backward
and skipping Cancelled (nil) entries; if no arm was ever recorded the duration
used is zero. -/
theorem C1_send_delivers_current_plus_last_armed (t : Int) (ops : List TimerOp) :
    ((runOps (NewClockFake t) ops).Send).sent =
      (runOps (NewClockFake t) ops).Now +
        (match mostRecentArmedRev ops.reverse with
          | some d => d
          | none => 0) := by
  have h := lastReset_runOps_rev ops.reverse (NewClockFake t)
  rw [List.reverse_reverse] at h
  have hs : ((runOps (NewClockFake t) ops).Send).sent =
      (runOps (NewClockFake t) ops).Now +
        ((runOps (NewClockFake t) ops).LastReset).1 := rfl
  rw [hs, h]
  cases hm : mostRecentArmedRev ops.reverse
  · simp [NewClockFake, ClockFake.LastReset, lastResetScan]
  · rfl

/-- C2: after a Send call completes, Now returns an instant strictly greater
than the instant that was delivered on TimeCh by that call. -/
theorem C2_now_after_send_exceeds_delivered (c : ClockFake) :
    (c.Send).sent < ((c.Send).state).Now := by
  have h : ((c.Send).state).Now = (c.Send).sent + 1 := rfl
  rw [h]
  exact lt_add_one _

/-- C3 fails on the code: starting from current instant 0 after arm(5), the
state observable while Send is blocked on the TimeCh send already has Now equal
to 6, not the pre-call value 0, because current is bumped at timer.go line 212,
before the blocking send at line 216. -/
theorem C3_counterexample :
    (((NewClockFake 0).Reset 5).sendPhase1).state.Now ≠
      ((NewClockFake 0).Reset 5).Now := by
  decide

/-- C3 amended: during a Send call, CurrentInstant is set to the delivered
instant plus one nanosecond already before the blocking send on TimeCh begins,
so while the send is blocked Now returns deliveredInstant + 1, SendingFlag is
already true and ScheduledFlag still has its pre-call value; ScheduledFlag and
SendingFlag are cleared only after the send completes. -/
theorem C3_amended_current_bumped_before_send (c : ClockFake) :
    ((c.sendPhase1).state).Now = (c.sendPhase1).sent + 1 ∧
    (c.sendPhase1).state.sending = true ∧
    (c.sendPhase1).state.scheduled = c.scheduled ∧
    ((c.sendPhase1).state.sendPhase2).scheduled = false ∧
    ((c.sendPhase1).state.sendPhase2).sending = false :=
  ⟨rfl, rfl, rfl, rfl, rfl⟩

/-- C4: for every trace of operations, the observable history returned by
CloneResetArg is exactly the sequence of arm and cancel calls in call order,
an arm(d) as a non-nil entry with value d and a cancel as a nil entry; the
other operations never remove or modify entries. -/
theorem C4_history_is_call_sequence (t : Int) (ops : List TimerOp) :
    (runOps (NewClockFake t) ops).historyVals = specHistory ops := by
  have h := historyVals_runOps ops (NewClockFake t) (wf_new t)
  simpa [ClockFake.historyVals, ClockFake.CloneResetArg, NewClockFake, derefAll] using h

/-- C5 fails on the code: after NewClockFake 0 and Reset 5, CloneResetArg
returns a slice whose entry is the pointer with address 0, and writing 7
through that pointer changes what LastReset subsequently observes, because the
clone shares its pointers with the internal history. -/
theorem C5_counterexample :
    (((NewClockFake 0).Reset 5).CloneResetArg).getD 0 none = some 0 ∧
    (writeThrough ((NewClockFake 0).Reset 5) 0 7).LastReset ≠
      ((NewClockFake 0).Reset 5).LastReset := by
  decide

/-- C5 amended: CloneResetArg returns a shallow copy: the returned slice is a
new slice, but its entries are the same pointers as the internal history, so
writing a value v through the pointer held by the clone's last entry after an
arm(d) makes LastReset observe (v, true) instead of (d, true). -/
theorem C5_amended_clone_shares_pointers (c : ClockFake) (d v : Int) :
    ((c.Reset d).CloneResetArg).getLast? = some (some c.heap.length) ∧
    (writeThrough (c.Reset d) c.heap.length v).LastReset = (v, true) := by
  constructor
  · simp [ClockFake.Reset, ClockFake.CloneResetArg]
  · have h1 : (writeThrough (c.Reset d) c.heap.length v).LastReset =
        (((c.heap ++ [d]).set c.heap.length v).getD c.heap.length 0, true) := by
      simp [ClockFake.Reset, writeThrough, ClockFake.LastReset, lastResetScan]
    rw [h1, getD_set_self _ _ _ (by simp)]

/-- C6: Stop returns the pre-call value of ScheduledFlag and then clears it:
after any trace from NewClockFake, the returned Boolean is true exactly when
the most recent among arm, cancel and send operations in the trace is an arm,
i.e. when an arm has neither been delivered nor cancelled since; it is false
when the clock was never armed, was already cancelled, or a send completed
after the last arm. -/
theorem C6_stop_returns_pre_call_scheduled (t : Int) (ops : List TimerOp) :
    ((runOps (NewClockFake t) ops).Stop).2 = schedAfterRev false ops.reverse ∧
    ((runOps (NewClockFake t) ops).Stop).1.scheduled = false := by
  constructor
  · have h := sched_runOps_rev ops.reverse (NewClockFake t)
    rw [List.reverse_reverse] at h
    exact h
  · rfl

/-- C7 fails on the code: Stop on a freshly constructed (idle) clock does
return false, but it is not a no-op on the observable state: it appends a
Cancelled (nil) entry to the history. -/
theorem C7_counterexample :
    ((NewClockFake 0).Stop).2 = false ∧
    (((NewClockFake 0).Stop).1).historyVals ≠ (NewClockFake 0).historyVals := by
  decide

/-- C7 amended: Stop while idle (not armed, not delivering) returns false and
leaves the current instant, both flags, the heap of recorded durations and
ResetCh unchanged, but it still appends a Cancelled (nil) entry to the history
(and signals StopCh). -/
theorem C7_amended_idle_stop_appends_nil (c : ClockFake) (h1 : c.scheduled = false)
    (h2 : c.sending = false) :
    (c.Stop).2 = false ∧
    (c.Stop).1.current = c.current ∧
    (c.Stop).1.scheduled = false ∧
    (c.Stop).1.sending = false ∧
    (c.Stop).1.heap = c.heap ∧
    (c.Stop).1.resetCh = c.resetCh ∧
    (c.Stop).1.resetArg = c.resetArg ++ [none] :=
  ⟨h1, rfl, rfl, h2, rfl, rfl, rfl⟩

/-- Witness for the amended C7 at the concrete idle clock NewClockFake 3. -/
theorem C7_amended_idle_stop_appends_nil_witness :
    ((NewClockFake 3).Stop).2 = false ∧
    ((NewClockFake 3).Stop).1.current = (NewClockFake 3).current ∧
    ((NewClockFake 3).Stop).1.scheduled = false ∧
    ((NewClockFake 3).Stop).1.sending = false ∧
    ((NewClockFake 3).Stop).1.heap = (NewClockFake 3).heap ∧
    ((NewClockFake 3).Stop).1.resetCh = (NewClockFake 3).resetCh ∧
    ((NewClockFake 3).Stop).1.resetArg = (NewClockFake 3).resetArg ++ [none] :=
  C7_amended_idle_stop_appends_nil (NewClockFake 3) rfl rfl

/-- C8: Send returns the CurrentInstant value as it was at the moment of the
call, before the post-delivery bump; in the concrete scenario starting at t0
with arm(1s), i.e. Reset 1000000000 nanoseconds, Send returns t0 while TimeCh
receives t0 + 1000000000. -/
theorem C8_send_returns_pre_call_instant (c : ClockFake) (t0 : Int) :
    (c.Send).ret = c.Now ∧
    (((NewClockFake t0).Reset 1000000000).Send).ret = t0 ∧
    (((NewClockFake t0).Reset 1000000000).Send).sent = t0 + 1000000000 :=
  ⟨rfl, rfl, rfl⟩

/-- C9: after any trace from NewClockFake, LastReset returns the duration of
the most recent armed entry with true regardless of cancels recorded after it,
and it returns (0, false) exactly when no arm occurs in the trace. -/
theorem C9_lastReset_most_recent_armed (t : Int) (ops : List TimerOp) :
    (runOps (NewClockFake t) ops).LastReset =
      (match mostRecentArmedRev ops.reverse with
        | some d => (d, true)
        | none => (0, false)) ∧
    (((runOps (NewClockFake t) ops).LastReset).2 = false ↔
      ∀ d, TimerOp.arm d ∉ ops) := by
  have h := lastReset_runOps_rev ops.reverse (NewClockFake t)
  rw [List.reverse_reverse] at h
  have hbase : (NewClockFake t).LastReset = (0, false) := rfl
  rw [hbase] at h
  refine ⟨h, ?_⟩
  rw [h]
  have hiff := mostRecentArmedRev_eq_none_iff ops.reverse
  cases hm : mostRecentArmedRev ops.reverse with
  | none =>
    have hno := hiff.1 hm
    constructor
    · intro _ d hd
      exact hno d (List.mem_reverse.mpr hd)
    · intro _
      rfl
  | some d =>
    rw [hm] at hiff
    constructor
    · intro hfalse
      simp at hfalse
    · intro hall
      have h2 : (some d : Option Int) = none :=
        hiff.mpr (fun e he => hall e (List.mem_reverse.mp he))
      simp at h2

/-- C10: the bump Send applies is exactly one nanosecond: Now after Send
returns the delivered instant plus 1, Send returns the pre-call current
instant, and the new current instant equals the old one plus the last recorded
duration plus 1. -/
theorem C10_epsilon_is_one_nanosecond (c : ClockFake) :
    ((c.Send).state).Now = (c.Send).sent + 1 ∧
    (c.Send).ret = c.Now ∧
    ((c.Send).state).Now = c.Now + (c.LastReset).1 + 1 :=
  ⟨rfl, rfl, rfl⟩
